import Mathlib

/-!
Version information of the running binary (`pkg/version/version.go`).

A shallow embedding of the Go package `version`: the five-field record `Info`,
the package-level variables (`label`, `gitCommit`, `os`, `arch`, `goVersion`
and the cache `info`), and the functions `Get`, `Set`, `SetFromEnv`, `Log` and
`readVersionFile`.

The package-level variables are threaded through every function as an explicit
`State`.  Everything outside the process (environment variables, the file
system, the version string of the Go runtime) is a `World` handed to each call.
Every function returns, next to its Go result, the new `State` and the list of
file paths it passed to `ioutil.ReadFile`, so that "performs no file read" is
the statement that this list is empty.

Go strings and file contents are modelled as sequences of Unicode code points
(`String`), that is, as valid UTF-8 text.

The decoder of `encoding/json`: `readVersionFile` decodes the file with `json.Unmarshal(contents, versionInfo)`
where `versionInfo` points at the package-level cache.  The standard library
behaviour that matters here is embedded in three steps:

* `scan`: the byte-level scanner (tokens, string escapes, number grammar);
* `parseTokens`: the container grammar, with the nesting limit of the scanner;
* `decodeValue`: storing a value into an `Info` in place: object keys select a
  struct field by exact match or else by case-insensitive match, a string is
  stored, `null` leaves the field alone, any other value records an
  `UnmarshalTypeError` (the earliest one is returned) and decoding goes on.

`json.Unmarshal` validates the whole input before it stores anything, so a
syntax error leaves the target untouched, whereas a type mismatch does not
undo the fields stored from the other members.
-/

namespace Version

/-! ## Data model -/

/-- Descriptor `Info` of version.go, lines 34-40. -/
structure Info where
  Label : String
  GitCommit : String
  OS : String
  Arch : String
  GoVersion : String
deriving DecidableEq, Repr

/-- The zero value of `Info`: what `var info Info` holds at process start. -/
def Info.zero : Info := ⟨"", "", "", "", ""⟩

/-- The exported fields of `Info`, in declaration order. -/
inductive Field
  | Label
  | GitCommit
  | OS
  | Arch
  | GoVersion
deriving DecidableEq, Repr

/-- The JSON key of a field: its `json:"..."` struct tag. -/
def Field.tag : Field → String
  | .Label => "label"
  | .GitCommit => "git_commit"
  | .OS => "os"
  | .Arch => "arch"
  | .GoVersion => "go_version"

/-- All fields, in declaration order. -/
def Field.all : List Field := [.Label, .GitCommit, .OS, .Arch, .GoVersion]

/-- Read one field of a descriptor. -/
def Info.get (v : Info) : Field → String
  | .Label => v.Label
  | .GitCommit => v.GitCommit
  | .OS => v.OS
  | .Arch => v.Arch
  | .GoVersion => v.GoVersion

/-- Store a string into one field of a descriptor. -/
def Info.put (v : Info) (f : Field) (x : String) : Info :=
  match f with
  | .Label => { v with Label := x }
  | .GitCommit => { v with GitCommit := x }
  | .OS => { v with OS := x }
  | .Arch => { v with Arch := x }
  | .GoVersion => { v with GoVersion := x }

/-- The error of a failed `ioutil.ReadFile`: Go's `*os.PathError`. -/
structure PathError where
  Op : String
  Path : String
  Err : String
deriving DecidableEq, Repr

/-- The errors `readVersionFile` can return.  The payload of the two
`encoding/json` errors is kept as far as it identifies the failure: a syntax
error carries nothing, a type error carries the kind of the offending JSON
value and the JSON key of the field it was meant for. -/
inductive Error
  | PathError (e : Version.PathError)
  | SyntaxError
  | UnmarshalTypeError (Value : String) (Field : String)
deriving DecidableEq, Repr

/-! ## JSON scanner -/

/-- Tokens of a JSON text.  A string token carries the decoded string. -/
inductive Token
  | beginObject
  | endObject
  | beginArray
  | endArray
  | colon
  | comma
  | string (s : String)
  | number
  | litTrue
  | litFalse
  | litNull
deriving DecidableEq, Repr

/-- States of the number grammar
`-? (0 | [1-9][0-9]*) (. [0-9]+)? ([eE] [+-]? [0-9]+)?`. -/
inductive NumState
  | neg
  | zero
  | int
  | dot
  | frac
  | exp
  | expSign
  | expDigits
deriving DecidableEq, Repr

/-- The states in which a number may end. -/
def NumState.accepting : NumState → Bool
  | .zero | .int | .frac | .expDigits => true
  | _ => false

/-- Whether the character is a decimal digit. -/
def isDigit (c : Char) : Bool := decide ('0' ≤ c) && decide (c ≤ '9')

/-- One character of a number; `none` when the character does not continue it. -/
def NumState.next (st : NumState) (c : Char) : Option NumState :=
  match st with
  | .neg => if c = '0' then some .zero else if isDigit c then some .int else none
  | .zero =>
    if c = '.' then some .dot else if c = 'e' ∨ c = 'E' then some .exp else none
  | .int =>
    if isDigit c then some .int
    else if c = '.' then some .dot
    else if c = 'e' ∨ c = 'E' then some .exp else none
  | .dot => if isDigit c then some .frac else none
  | .frac =>
    if isDigit c then some .frac else if c = 'e' ∨ c = 'E' then some .exp else none
  | .exp =>
    if c = '+' ∨ c = '-' then some .expSign
    else if isDigit c then some .expDigits else none
  | .expSign => if isDigit c then some .expDigits else none
  | .expDigits => if isDigit c then some .expDigits else none

/-- Value of a hexadecimal digit. -/
def hexVal (c : Char) : Option Nat :=
  if '0' ≤ c ∧ c ≤ '9' then some (c.toNat - '0'.toNat)
  else if 'a' ≤ c ∧ c ≤ 'f' then some (c.toNat - 'a'.toNat + 10)
  else if 'A' ≤ c ∧ c ≤ 'F' then some (c.toNat - 'A'.toNat + 10)
  else none

/-- Go's `utf16.IsSurrogate`. -/
def isSurrogate (r : Nat) : Bool := decide (0xd800 ≤ r) && decide (r < 0xe000)

/-- Go's `utf16.DecodeRune`: the code point of a valid surrogate pair. -/
def decodePair (r1 r2 : Nat) : Option Nat :=
  if 0xd800 ≤ r1 ∧ r1 < 0xdc00 ∧ 0xdc00 ≤ r2 ∧ r2 < 0xe000 then
    some ((r1 - 0xd800) * 0x400 + (r2 - 0xdc00) + 0x10000)
  else none

/-- The replacement character written for an unpaired surrogate. -/
def replacementChar : Char := Char.ofNat 0xfffd

/-- Scanner state.  Inside a string, `acc` is the decoded text so far (latest
character first) and `hi` is a `\u` escape in the surrogate range that still
waits for its partner. -/
inductive Scan
  | ready
  | inString (acc : List Char) (hi : Option Nat)
  | inStringEsc (acc : List Char) (hi : Option Nat)
  | inStringEscU (acc : List Char) (hi : Option Nat) (digits : List Nat)
  | inNumber (st : NumState)
  | inLiteral (rest : List Char) (tok : Token)

/-- Write the replacement character for a surrogate that found no partner. -/
def flush (acc : List Char) : Option Nat → List Char
  | none => acc
  | some _ => replacementChar :: acc

/-- A `\uXXXX` escape with value `rr` that starts afresh. -/
def freshUnit (acc : List Char) (rr : Nat) : Scan :=
  if isSurrogate rr then .inString acc (some rr) else .inString (Char.ofNat rr :: acc) none

/-- A completed `\uXXXX` escape with value `rr`, after a possible pending
surrogate `hi`: a valid pair is one code point, otherwise the pending
surrogate becomes the replacement character and `rr` starts afresh. -/
def resolveUnit (acc : List Char) (hi : Option Nat) (rr : Nat) : Scan :=
  match hi with
  | none => freshUnit acc rr
  | some r1 =>
    match decodePair r1 rr with
    | some r => .inString (Char.ofNat r :: acc) none
    | none => freshUnit (replacementChar :: acc) rr

/-- The character of a one-letter escape. -/
def escapeChar (c : Char) : Option Char :=
  if c = 'b' then some (Char.ofNat 8)
  else if c = 'f' then some (Char.ofNat 12)
  else if c = 'n' then some (Char.ofNat 10)
  else if c = 'r' then some (Char.ofNat 13)
  else if c = 't' then some (Char.ofNat 9)
  else if c = '/' ∨ c = '\\' ∨ c = '"' then some c
  else none

/-- A character met between tokens. -/
def scanReady (c : Char) : Option (Scan × List Token) :=
  if c = ' ' ∨ c = '\t' ∨ c = '\r' ∨ c = '\n' then some (.ready, [])
  else if c = '{' then some (.ready, [.beginObject])
  else if c = '}' then some (.ready, [.endObject])
  else if c = '[' then some (.ready, [.beginArray])
  else if c = ']' then some (.ready, [.endArray])
  else if c = ':' then some (.ready, [.colon])
  else if c = ',' then some (.ready, [.comma])
  else if c = '"' then some (.inString [] none, [])
  else if c = '-' then some (.inNumber .neg, [])
  else if c = '0' then some (.inNumber .zero, [])
  else if isDigit c then some (.inNumber .int, [])
  else if c = 't' then some (.inLiteral ['r', 'u', 'e'] .litTrue, [])
  else if c = 'f' then some (.inLiteral ['a', 'l', 's', 'e'] .litFalse, [])
  else if c = 'n' then some (.inLiteral ['u', 'l', 'l'] .litNull, [])
  else none

/-- One character of input: the next state and the tokens completed by it, or
`none` at a syntax error. -/
def scanStep (s : Scan) (c : Char) : Option (Scan × List Token) :=
  match s with
  | .ready => scanReady c
  | .inString acc hi =>
    if c = '"' then some (.ready, [.string (String.mk (flush acc hi).reverse)])
    else if c = '\\' then some (.inStringEsc acc hi, [])
    else if c.toNat < 0x20 then none
    else some (.inString (c :: flush acc hi) none, [])
  | .inStringEsc acc hi =>
    if c = 'u' then some (.inStringEscU acc hi [], [])
    else
      match escapeChar c with
      | some e => some (.inString (e :: flush acc hi) none, [])
      | none => none
  | .inStringEscU acc hi digits =>
    match hexVal c with
    | none => none
    | some d =>
      match digits with
      | [a, b, e] => some (resolveUnit acc hi (((a * 16 + b) * 16 + e) * 16 + d), [])
      | _ => some (.inStringEscU acc hi (digits ++ [d]), [])
  | .inNumber st =>
    match st.next c with
    | some st' => some (.inNumber st', [])
    | none =>
      if st.accepting then
        match scanReady c with
        | some (s', toks) => some (s', .number :: toks)
        | none => none
      else none
  | .inLiteral rest tok =>
    match rest with
    | [] => none
    | x :: xs =>
      if c = x then
        match xs with
        | [] => some (.ready, [tok])
        | _ :: _ => some (.inLiteral xs tok, [])
      else none

/-- Scan a whole text from a state; `none` at a syntax error or when the text
ends inside a token. -/
def scanFrom : Scan → List Char → Option (List Token)
  | s, [] =>
    match s with
    | .ready => some []
    | .inNumber st => if st.accepting then some [.number] else none
    | _ => none
  | s, c :: cs =>
    match scanStep s c with
    | none => none
    | some (s', toks) =>
      match scanFrom s' cs with
      | none => none
      | some rest => some (toks ++ rest)

/-- The tokens of a JSON text. -/
def scan (data : String) : Option (List Token) := scanFrom .ready data.toList

/-! ## JSON values -/

/-- A parsed JSON value.  Object members keep their order and duplicates. -/
inductive JValue
  | null
  | bool (b : Bool)
  | number
  | string (s : String)
  | array (elems : List JValue)
  | object (members : List (String × JValue))

/-- An open container on the parse stack; elements and members are kept latest
first.  `member` is an object whose next value belongs to `key`. -/
inductive Frame
  | array (elems : List JValue)
  | object (members : List (String × JValue))
  | member (members : List (String × JValue)) (key : String)

/-- What the grammar allows next. -/
inductive Expect
  | value
  | valueOrEnd
  | keyOrEnd
  | key
  | colon
  | commaOrEnd
  | eof (v : JValue)

/-- The scanner's limit on open containers. -/
def maxNestingDepth : Nat := 10000

/-- A finished value goes to the innermost open container, or is the result. -/
def complete (v : JValue) : List Frame → Option (List Frame × Expect)
  | [] => some ([], .eof v)
  | .array es :: st => some (.array (v :: es) :: st, .commaOrEnd)
  | .member ms k :: st => some (.object ((k, v) :: ms) :: st, .commaOrEnd)
  | .object _ :: _ => none

/-- Open a container, unless that exceeds the nesting limit. -/
def push (f : Frame) (e : Expect) (st : List Frame) : Option (List Frame × Expect) :=
  if st.length + 1 ≤ maxNestingDepth then some (f :: st, e) else none

/-- A token where a value must start. -/
def beginValue (st : List Frame) : Token → Option (List Frame × Expect)
  | .beginObject => push (.object []) .keyOrEnd st
  | .beginArray => push (.array []) .valueOrEnd st
  | .string s => complete (.string s) st
  | .number => complete .number st
  | .litTrue => complete (.bool true) st
  | .litFalse => complete (.bool false) st
  | .litNull => complete .null st
  | _ => none

/-- One token of input. -/
def parseStep (st : List Frame) (e : Expect) (t : Token) : Option (List Frame × Expect) :=
  match e, st, t with
  | .value, st, t => beginValue st t
  | .valueOrEnd, .array es :: st, .endArray => complete (.array es.reverse) st
  | .valueOrEnd, st, t => beginValue st t
  | .keyOrEnd, .object ms :: st, .string k => some (.member ms k :: st, .colon)
  | .keyOrEnd, .object ms :: st, .endObject => complete (.object ms.reverse) st
  | .key, .object ms :: st, .string k => some (.member ms k :: st, .colon)
  | .colon, st, .colon => some (st, .value)
  | .commaOrEnd, .array es :: st, .comma => some (.array es :: st, .value)
  | .commaOrEnd, .object ms :: st, .comma => some (.object ms :: st, .key)
  | .commaOrEnd, .array es :: st, .endArray => complete (.array es.reverse) st
  | .commaOrEnd, .object ms :: st, .endObject => complete (.object ms.reverse) st
  | _, _, _ => none

/-- Parse a token list from a parser configuration: exactly one value. -/
def parseFrom : List Frame → Expect → List Token → Option JValue
  | st, e, [] =>
    match st, e with
    | [], .eof v => some v
    | _, _ => none
  | st, e, t :: ts =>
    match parseStep st e t with
    | none => none
    | some (st', e') => parseFrom st' e' ts

/-- The value of a token list. -/
def parseTokens (ts : List Token) : Option JValue := parseFrom [] .value ts

/-- The value of a JSON text; `none` when the text is not valid JSON. -/
def parseJSON (data : String) : Option JValue :=
  match scan data with
  | none => none
  | some ts => parseTokens ts

/-! ## `json.Unmarshal` into an `Info` -/

/-- Simple case folding of a character, on the characters that fold to an
ASCII character: the capital letters, the Kelvin sign and the long s. -/
def foldRune (c : Char) : Char :=
  if 'A' ≤ c ∧ c ≤ 'Z' then Char.ofNat (c.toNat + 32)
  else if c = Char.ofNat 0x212a then 'k'
  else if c = Char.ofNat 0x17f then 's'
  else c

/-- Equality under simple case folding, as `bytes.EqualFold` decides it when
one of the two strings is ASCII (every struct tag of `Info` is). -/
def equalFold (s t : String) : Bool := s.toList.map foldRune == t.toList.map foldRune

/-- The struct field an object key selects: the field whose tag is the key,
or else the first field whose tag equals the key under case folding. -/
def findField (key : String) : Option Field :=
  match Field.all.find? (fun f => decide (f.tag = key)) with
  | some f => some f
  | none => Field.all.find? (fun f => equalFold f.tag key)

/-- Record a type error unless an earlier one is already recorded. -/
def saveError (saved : Option Error) (e : Error) : Option Error :=
  match saved with
  | none => some e
  | some e0 => some e0

/-- Store a JSON value into a string field: a string is stored, `null` is
skipped, anything else is a type error and the field keeps its value. -/
def storeValue (v : Info) (saved : Option Error) (f : Field) (j : JValue) :
    Info × Option Error :=
  match j with
  | .string s => (v.put f s, saved)
  | .null => (v, saved)
  | .bool _ => (v, saveError saved (.UnmarshalTypeError "bool" f.tag))
  | .number => (v, saveError saved (.UnmarshalTypeError "number" f.tag))
  | .array _ => (v, saveError saved (.UnmarshalTypeError "array" f.tag))
  | .object _ => (v, saveError saved (.UnmarshalTypeError "object" f.tag))

/-- One object member: a key that selects no field is skipped. -/
def decodeMember (acc : Info × Option Error) (kv : String × JValue) : Info × Option Error :=
  match findField kv.1 with
  | none => acc
  | some f => storeValue acc.1 acc.2 f kv.2

/-- Store a JSON value into the struct `v`, in place.  The members of an
object are decoded in order; `null` is a no-op; any other value is a type
error. -/
def decodeValue (j : JValue) (v : Info) : Info × Option Error :=
  match j with
  | .object ms => ms.foldl decodeMember (v, none)
  | .null => (v, none)
  | .bool _ => (v, some (.UnmarshalTypeError "bool" ""))
  | .number => (v, some (.UnmarshalTypeError "number" ""))
  | .string _ => (v, some (.UnmarshalTypeError "string" ""))
  | .array _ => (v, some (.UnmarshalTypeError "array" ""))

/-- Go's `json.Unmarshal(data, v)` for `v : *Info`: the new value of `*v` and
the returned error. -/
def Unmarshal (data : String) (v : Info) : Info × Option Error :=
  match parseJSON data with
  | none => (v, some .SyntaxError)
  | some j => decodeValue j v

/-! ## The package -/

/-- Everything outside the process that the package consults: the environment
(`none` for a variable that is not set), the file system as `ioutil.ReadFile`
sees it, and the result of `runtime.Version()`. -/
structure World where
  env : String → Option String
  ReadFile : String → Except PathError String
  Version : String

/-- Go's `os.Getenv`: the empty string for a variable that is not set. -/
def Getenv (w : World) (key : String) : String := (w.env key).getD ""

/-- Modelled from the spec: `common.GetEnvOrDefaultString` of `pkg/common`,
which is not among the sources.  The specification says that
`SetFromEnv` substitutes a default "for any that are unset" and that the
defaults "guarantee non-empty `label`"; the helper is read as returning the
default whenever `os.Getenv` yields the empty string (variable unset or set to
the empty string) and the value of the variable otherwise. -/
def GetEnvOrDefaultString (w : World) (key : String) (defaultValue : String) : String :=
  let value := Getenv w key
  if value = "" then defaultValue else value

/-- Constant `versionFileEnvKey`, line 31. -/
def versionFileEnvKey : String := "NUCLIO_VERSION_FILE"

/-- The package-level variables: the five build-injected strings (lines 44-50)
and the cache `info` (line 52). -/
structure State where
  label : String
  gitCommit : String
  os : String
  arch : String
  goVersion : String
  info : Info
deriving DecidableEq, Repr

/-- The variables as declared: nothing injected by the linker, empty cache. -/
def State.initial : State := ⟨"", "", "", "", "", Info.zero⟩

/-- A call's outcome: its Go result, the package variables afterwards, and the
paths given to `ioutil.ReadFile` during the call, in order. -/
structure Ret (α : Type) where
  result : α
  state : State
  reads : List String

/-- The path `readVersionFile` reads, lines 113-116. -/
def versionFilePath (w : World) : String :=
  let versionFilePath := Getenv w versionFileEnvKey
  if versionFilePath = "" then "/etc/nuclio/version_info.json" else versionFilePath

/-- Outcome of `readVersionFile`: the value behind the pointer afterwards, the
returned error (`none` for `nil`), and the paths read. -/
structure ReadRet where
  versionInfo : Info
  err : Option Error
  reads : List String

/-- Function `readVersionFile`, lines 112-128.  The pointer argument is
modelled by passing the value it points at and returning the value
afterwards. -/
def readVersionFile (w : World) (versionInfo : Info) : ReadRet :=
  let path := versionFilePath w
  match w.ReadFile path with
  | .error err => ⟨versionInfo, some (.PathError err), [path]⟩
  | .ok versionFileContents =>
    match Unmarshal versionFileContents versionInfo with
    | (versionInfo', some err) => ⟨versionInfo', some err, [path]⟩
    | (versionInfo', none) => ⟨versionInfo', none, [path]⟩

/-- Function `Get`, lines 55-81.  `Except.error e` is the Go result
`(nil, e)`; `Except.ok v` is `(p, nil)` with `v` the value `p` points at when
the call returns. -/
def Get (w : World) (s : State) : Ret (Except Error Info) :=
  if s.label = "" then
    if s.info.Label = "" then
      let r := readVersionFile w s.info
      match r.err with
      | some err => ⟨.error err, { s with info := r.versionInfo }, r.reads⟩
      | none => ⟨.ok r.versionInfo, { s with info := r.versionInfo }, r.reads⟩
    else
      ⟨.ok s.info, s, []⟩
  else
    ⟨.ok ⟨s.label, s.gitCommit, s.os, s.arch, s.goVersion⟩, s, []⟩

/-- Function `Set`, lines 84-90. -/
def Set (info : Info) (s : State) : State :=
  { s with
    label := info.Label
    gitCommit := info.GitCommit
    os := info.OS
    arch := info.Arch
    goVersion := info.GoVersion }

/-- Function `SetFromEnv`, lines 93-99. -/
def SetFromEnv (w : World) (s : State) : State :=
  { s with
    gitCommit := GetEnvOrDefaultString w "NUCLIO_VERSION_GIT_COMMIT" "c"
    label := GetEnvOrDefaultString w "NUCLIO_LABEL" "latest"
    arch := GetEnvOrDefaultString w "NUCLIO_ARCH" "amd64"
    os := GetEnvOrDefaultString w "NUCLIO_OS" "linux"
    goVersion := w.Version }

/-- A record handed to the logger: the level is the constructor. -/
inductive Record
  | WarnWith (format : String) (key : String) (err : Error)
  | InfoWith (format : String) (key : String) (version : Info)
deriving DecidableEq, Repr

/-- Function `Log`, lines 102-110.  The logger is the list of records it has
received; the result is that list after the call. -/
def Log (w : World) (s : State) (logger : List Record) : Ret (List Record) :=
  let r := Get w s
  match r.result with
  | .error err => ⟨logger ++ [.WarnWith "Failed to read version info" "err" err], r.state, r.reads⟩
  | .ok versionInfo => ⟨logger ++ [.InfoWith "Read version" "version" versionInfo], r.state, r.reads⟩

/-! ## Concrete worlds -/

/-- The default location of the version file. -/
def defaultPath : String := "/etc/nuclio/version_info.json"

/-- What `ioutil.ReadFile` returns for a path that does not exist. -/
def notExist (path : String) : PathError := ⟨"open", path, "no such file or directory"⟩

/-- A world with no environment variable set and no file at all. -/
def bareWorld : World :=
  { env := fun _ => none, ReadFile := fun p => .error (notExist p), Version := "go1.17" }

/-- A world with no environment variable set and one file, at the default
location. -/
def fileWorld (contents : String) : World :=
  { env := fun _ => none
    ReadFile := fun p => if p = defaultPath then .ok contents else .error (notExist p)
    Version := "go1.17" }

/-- A world whose environment sets exactly one variable. -/
def envWorld (key value : String) : World :=
  { env := fun k => if k = key then some value else none
    ReadFile := fun p => .error (notExist p)
    Version := "go1.17" }

/-- Version file with a label only. -/
def labelOnly : String := "\x7b\"label\":\"v1.0\"\x7d"

/-- Version file with an operating system only. -/
def osOnly : String := "\x7b\"os\":\"linux\"\x7d"

/-- Version file whose only key is the label's tag in capitals. -/
def upperLabel : String := "\x7b\"LABEL\":\"v1.0\"\x7d"

/-- Version file with the label's tag once, and once more in capitals. -/
def twoLabels : String := "\x7b\"label\":\"a\",\"LABEL\":\"b\"\x7d"

/-- Version file that is an object without members. -/
def emptyObject : String := "\x7b\x7d"

/-- Version file that is valid JSON with a number where a string belongs. -/
def mismatched : String := "\x7b\"label\":\"v1.0\",\"os\":5\x7d"

/-- A state whose build-injected slot is empty and whose cache already holds a
descriptor read from disk. -/
def cachedState : State := ⟨"", "", "", "", "", ⟨"1.2.3", "abc", "linux", "arm64", "go1.17"⟩⟩

/-- A descriptor as a test would inject it. -/
def sampleInfo : Info := ⟨"test-label", "deadbeef", "darwin", "amd64", "go1.21"⟩

/-- Equality of `Get` results is decidable. -/
instance instDecidableEqGetResult : DecidableEq (Except Error Info)
  | .ok a, .ok b =>
    if h : a = b then isTrue (congrArg Except.ok h)
    else isFalse (fun h' => h (Except.ok.inj h'))
  | .error a, .error b =>
    if h : a = b then isTrue (congrArg Except.error h)
    else isFalse (fun h' => h (Except.error.inj h'))
  | .ok _, .error _ => isFalse (fun h => nomatch h)
  | .error _, .ok _ => isFalse (fun h => nomatch h)

/-- The members of an object; no members for any other value. -/
def JValue.members : JValue → List (String × JValue)
  | .object ms => ms
  | _ => []

/-! ## Lemmas -/

theorem Get_of_label {w : World} {s : State} (h : s.label ≠ "") :
    Get w s = ⟨.ok ⟨s.label, s.gitCommit, s.os, s.arch, s.goVersion⟩, s, []⟩ := by
  simp [Get, h]

theorem Get_of_cached {w : World} {s : State} (hl : s.label = "") (hc : s.info.Label ≠ "") :
    Get w s = ⟨.ok s.info, s, []⟩ := by
  simp [Get, hl, hc]

theorem Get_of_read_ok {w : World} {s : State} (hl : s.label = "") (hc : s.info.Label = "")
    (hr : (readVersionFile w s.info).err = none) :
    Get w s = ⟨.ok (readVersionFile w s.info).versionInfo,
      { s with info := (readVersionFile w s.info).versionInfo },
      (readVersionFile w s.info).reads⟩ := by
  simp [Get, hl, hc, hr]

theorem Get_of_read_error {w : World} {s : State} {e : Error} (hl : s.label = "")
    (hc : s.info.Label = "") (hr : (readVersionFile w s.info).err = some e) :
    Get w s = ⟨.error e, { s with info := (readVersionFile w s.info).versionInfo },
      (readVersionFile w s.info).reads⟩ := by
  simp [Get, hl, hc, hr]

theorem readVersionFile_of_read_error {w : World} {e : PathError} (v : Info)
    (h : w.ReadFile (versionFilePath w) = .error e) :
    readVersionFile w v = ⟨v, some (.PathError e), [versionFilePath w]⟩ := by
  simp [readVersionFile, h]

theorem readVersionFile_of_read_ok {w : World} {c : String} (v : Info)
    (h : w.ReadFile (versionFilePath w) = .ok c) :
    readVersionFile w v = ⟨(Unmarshal c v).1, (Unmarshal c v).2, [versionFilePath w]⟩ := by
  simp only [readVersionFile, h]
  rcases hU : Unmarshal c v with ⟨v', _ | err⟩ <;> rfl

theorem readVersionFile_reads (w : World) (v : Info) :
    (readVersionFile w v).reads = [versionFilePath w] := by
  cases h : w.ReadFile (versionFilePath w) with
  | error e => rw [readVersionFile_of_read_error v h]
  | ok c => rw [readVersionFile_of_read_ok v h]

theorem readVersionFile_err (w : World) (v : Info) :
    (readVersionFile w v).err =
      match w.ReadFile (versionFilePath w) with
      | .error e => some (.PathError e)
      | .ok c => (Unmarshal c v).2 := by
  cases h : w.ReadFile (versionFilePath w) with
  | error e => rw [readVersionFile_of_read_error v h]
  | ok c => rw [readVersionFile_of_read_ok v h]

theorem GetEnvOrDefaultString_ne_empty (w : World) (key d : String) (hd : d ≠ "") :
    GetEnvOrDefaultString w key d ≠ "" := by
  unfold GetEnvOrDefaultString
  by_cases h : Getenv w key = ""
  · simp [h, hd]
  · simp [h]

theorem GetEnvOrDefaultString_unset (w : World) (key d : String) (h : w.env key = none) :
    GetEnvOrDefaultString w key d = d := by
  simp [GetEnvOrDefaultString, Getenv, h]

theorem GetEnvOrDefaultString_set (w : World) (key d x : String) (h : w.env key = some x)
    (hx : x ≠ "") : GetEnvOrDefaultString w key d = x := by
  simp [GetEnvOrDefaultString, Getenv, h, hx]

theorem Info.get_put (v : Info) (f g : Field) (x : String) :
    (v.put g x).get f = if g = f then x else v.get f := by
  cases f <;> cases g <;> rfl

theorem foldedTag_injective (f g : Field)
    (h : f.tag.toList.map foldRune = g.tag.toList.map foldRune) : f = g := by
  revert h
  cases f <;> cases g <;> decide

theorem equalFold_unique {f g : Field} {key : String} (hf : equalFold f.tag key = true)
    (hg : equalFold g.tag key = true) : f = g := by
  simp only [equalFold, beq_iff_eq] at hf hg
  exact foldedTag_injective f g (hf.trans hg.symm)

theorem Field.mem_all (f : Field) : f ∈ Field.all := by
  cases f <;> simp [Field.all]

/-- An object key selects the field `f` exactly when it equals the tag of `f`
under case folding. -/
theorem findField_eq_some_iff (key : String) (f : Field) :
    findField key = some f ↔ equalFold f.tag key = true := by
  unfold findField
  constructor
  · intro h
    cases he : Field.all.find? (fun f => decide (f.tag = key)) with
    | some g =>
      rw [he] at h
      have hg := List.find?_some he
      simp only [decide_eq_true_eq] at hg
      cases h
      simp [equalFold, ← hg]
    | none =>
      simp only [he] at h
      exact List.find?_some (p := fun g : Field => equalFold g.tag key) h
  · intro h
    cases he : Field.all.find? (fun f => decide (f.tag = key)) with
    | some g =>
      have hg := List.find?_some he
      simp only [decide_eq_true_eq] at hg
      have hg' : equalFold g.tag key = true := by simp [equalFold, ← hg]
      simp only
      rw [equalFold_unique hg' h]
    | none =>
      simp only
      cases hq : Field.all.find? (fun f => equalFold f.tag key) with
      | some g =>
        rw [equalFold_unique (List.find?_some (p := fun g : Field => equalFold g.tag key) hq) h]
      | none =>
        have := List.find?_eq_none.mp hq f (Field.mem_all f)
        exact absurd h this

theorem decodeMember_get_keep (acc : Info × Option Error) (kv : String × JValue) (f : Field)
    (h : equalFold f.tag kv.1 = true → ∀ y, kv.2 ≠ .string y) :
    (decodeMember acc kv).1.get f = acc.1.get f := by
  unfold decodeMember
  cases hk : findField kv.1 with
  | none => rfl
  | some g =>
    simp only
    cases hv : kv.2 with
    | string y =>
      have hne : g ≠ f := by
        intro hgf
        subst hgf
        exact h ((findField_eq_some_iff _ _).mp hk) y hv
      simp [storeValue, Info.get_put, hne]
    | null => rfl
    | bool b => rfl
    | number => rfl
    | array es => rfl
    | object ms => rfl

theorem decodeMember_get_store (acc : Info × Option Error) (k x : String) (f : Field)
    (h : equalFold f.tag k = true) :
    (decodeMember acc (k, .string x)).1.get f = x := by
  simp [decodeMember, (findField_eq_some_iff k f).mpr h, storeValue, Info.get_put]

theorem foldl_decodeMember_get_keep (ms : List (String × JValue)) (f : Field) :
    ∀ acc : Info × Option Error,
      (∀ kv ∈ ms, equalFold f.tag kv.1 = true → ∀ y, kv.2 ≠ .string y) →
      (ms.foldl decodeMember acc).1.get f = acc.1.get f := by
  induction ms with
  | nil => intro acc _; rfl
  | cons m ms ih =>
    intro acc h
    rw [List.foldl_cons, ih _ (fun kv hkv => h kv (List.mem_cons_of_mem _ hkv))]
    exact decodeMember_get_keep acc m f (h m (List.mem_cons_self _ _))

theorem foldl_decodeMember_get_last (pre post : List (String × JValue)) (k x : String)
    (f : Field) (acc : Info × Option Error) (hk : equalFold f.tag k = true)
    (hpost : ∀ kv ∈ post, equalFold f.tag kv.1 = true → ∀ y, kv.2 ≠ .string y) :
    ((pre ++ (k, .string x) :: post).foldl decodeMember acc).1.get f = x := by
  rw [List.foldl_append, List.foldl_cons, foldl_decodeMember_get_keep post f _ hpost]
  exact decodeMember_get_store _ k x f hk

theorem decodeValue_eq_foldl (j : JValue) (v : Info) :
    (decodeValue j v).1 = (j.members.foldl decodeMember (v, none)).1 := by
  cases j <;> rfl

theorem Info.get_zero (f : Field) : Info.zero.get f = "" := by
  cases f <;> rfl

theorem Info.eq_of_get {a b : Info} (h : ∀ f, a.get f = b.get f) : a = b := by
  have h1 := h .Label
  have h2 := h .GitCommit
  have h3 := h .OS
  have h4 := h .Arch
  have h5 := h .GoVersion
  cases a
  cases b
  simp only [Info.get] at h1 h2 h3 h4 h5
  rw [h1, h2, h3, h4, h5]

/-- For a field, either no member stores into it, or there is a last member
that does. -/
theorem members_last_store (f : Field) (ms : List (String × JValue)) :
    (∀ kv ∈ ms, equalFold f.tag kv.1 = true → ∀ y, kv.2 ≠ .string y) ∨
      ∃ pre k x post, ms = pre ++ (k, .string x) :: post ∧ equalFold f.tag k = true ∧
        ∀ kv ∈ post, equalFold f.tag kv.1 = true → ∀ y, kv.2 ≠ .string y := by
  induction ms with
  | nil => exact Or.inl (fun kv hkv => nomatch hkv)
  | cons m ms ih =>
    rcases ih with hnone | ⟨pre, k, x, post, hms, hk, hpost⟩
    · by_cases hm : equalFold f.tag m.1 = true ∧ ∃ y, m.2 = .string y
      · obtain ⟨hk, y, hy⟩ := hm
        refine Or.inr ⟨[], m.1, y, ms, ?_, hk, hnone⟩
        rw [← hy]
        rfl
      · refine Or.inl (fun kv hkv hk y hy => ?_)
        rcases List.mem_cons.mp hkv with rfl | hmem
        · exact hm ⟨hk, y, hy⟩
        · exact hnone kv hmem hk y hy
    · exact Or.inr ⟨m :: pre, k, x, post, by rw [hms]; rfl, hk, hpost⟩

/-- Decoding the members of an object a second time changes nothing. -/
theorem foldl_decodeMember_idem (ms : List (String × JValue)) (acc acc' : Info × Option Error) :
    (ms.foldl decodeMember ((ms.foldl decodeMember acc).1, acc'.2)).1
      = (ms.foldl decodeMember acc).1 := by
  apply Info.eq_of_get
  intro f
  rcases members_last_store f ms with hnone | ⟨pre, k, x, post, hms, hk, hpost⟩
  · rw [foldl_decodeMember_get_keep ms f _ hnone]
  · have h1 := foldl_decodeMember_get_last pre post k x f acc hk hpost
    have h2 := foldl_decodeMember_get_last pre post k x f
      (((pre ++ (k, .string x) :: post).foldl decodeMember acc).1, acc'.2) hk hpost
    rw [hms, h1, h2]

theorem decodeMember_snd (acc acc' : Info × Option Error) (m : String × JValue)
    (h : acc.2 = acc'.2) : (decodeMember acc m).2 = (decodeMember acc' m).2 := by
  unfold decodeMember
  cases findField m.1 with
  | none => exact h
  | some g =>
    simp only
    cases m.2 <;> simp [storeValue, h]

/-- The error of decoding an object does not depend on the struct decoded
into. -/
theorem foldl_decodeMember_snd (ms : List (String × JValue)) :
    ∀ acc acc' : Info × Option Error, acc.2 = acc'.2 →
      (ms.foldl decodeMember acc).2 = (ms.foldl decodeMember acc').2 := by
  induction ms with
  | nil => intro acc acc' h; exact h
  | cons m ms ih =>
    intro acc acc' h
    rw [List.foldl_cons, List.foldl_cons]
    exact ih _ _ (decodeMember_snd acc acc' m h)

theorem Unmarshal_snd (c : String) (v v' : Info) : (Unmarshal c v).2 = (Unmarshal c v').2 := by
  unfold Unmarshal
  cases parseJSON c with
  | none => rfl
  | some j =>
    cases j with
    | object ms => exact foldl_decodeMember_snd ms _ _ rfl
    | null => rfl
    | bool b => rfl
    | number => rfl
    | string x => rfl
    | array es => rfl

/-- Unmarshalling the same text into the result of unmarshalling it changes
nothing. -/
theorem Unmarshal_idem (c : String) (v : Info) :
    (Unmarshal c (Unmarshal c v).1).1 = (Unmarshal c v).1 := by
  unfold Unmarshal
  cases parseJSON c with
  | none => rfl
  | some j =>
    cases j with
    | object ms => exact foldl_decodeMember_idem ms (v, none) (v, none)
    | null => rfl
    | bool b => rfl
    | number => rfl
    | string x => rfl
    | array es => rfl

/-! ## The build-injected slot -/

/-- C1. Priority of the build-injected slot: after `Set(D)` with a non-empty
`D.Label`, whatever the package variables held before and whatever the
environment and file system are, `Get()` succeeds with a descriptor equal to
`D` in all five fields and reads no file. -/
theorem Get_after_Set (w : World) (s : State) (D : Info) (hD : D.Label ≠ "") :
    (Get w (Set D s)).result = .ok D ∧ (Get w (Set D s)).reads = [] := by
  have h : (Set D s).label ≠ "" := hD
  rw [Get_of_label h]
  exact ⟨rfl, rfl⟩

/-- Instance of `Get_after_Set`: a populated cache and a version file on disk do not
override an injected descriptor. -/
theorem Get_after_Set_witness :
    sampleInfo.Label ≠ "" ∧
      (Get (fileWorld "\x7b\"label\":\"on-disk\"\x7d") (Set sampleInfo cachedState)).result
        = .ok sampleInfo ∧
      (Get (fileWorld "\x7b\"label\":\"on-disk\"\x7d") (Set sampleInfo cachedState)).reads = [] :=
  ⟨by decide, Get_after_Set _ cachedState sampleInfo (by decide)⟩

/-- C9. Cache hit: with an empty build-injected label and a non-empty cached
label, `Get()` succeeds with exactly the cache slot's descriptor, reads no
file, and leaves every package variable as it was. -/
theorem Get_cache_hit (w : World) (s : State) (hl : s.label = "") (hc : s.info.Label ≠ "") :
    (Get w s).result = .ok s.info ∧ (Get w s).reads = [] ∧ (Get w s).state = s := by
  rw [Get_of_cached hl hc]
  exact ⟨rfl, rfl, rfl⟩

/-- Instance of `Get_cache_hit`: a populated cache is returned with no file system
at all. -/
theorem Get_cache_hit_witness :
    cachedState.label = "" ∧ cachedState.info.Label ≠ "" ∧
      (Get bareWorld cachedState).result = .ok cachedState.info ∧
      (Get bareWorld cachedState).reads = [] ∧ (Get bareWorld cachedState).state = cachedState :=
  ⟨by decide, by decide, Get_cache_hit bareWorld cachedState (by decide) (by decide)⟩

/-! ## Failure of `Get` -/

/-- C5. `Get()` returns an error exactly when both labels are empty and
`readVersionFile` fails; it then returns no descriptor and the very error of
`readVersionFile`, which is the error of `ioutil.ReadFile` when the read
fails and the error of `json.Unmarshal` otherwise; in every other case it
returns a descriptor and no error. -/
theorem Get_error_iff (w : World) (s : State) :
    ((∃ e, (Get w s).result = .error e) ↔
        (s.label = "" ∧ s.info.Label = "" ∧ (readVersionFile w s.info).err ≠ none)) ∧
      (∀ e, s.label = "" → s.info.Label = "" → (readVersionFile w s.info).err = some e →
        (Get w s).result = .error e) ∧
      (¬ (s.label = "" ∧ s.info.Label = "" ∧ (readVersionFile w s.info).err ≠ none) →
        ∃ v, (Get w s).result = .ok v) ∧
      ((readVersionFile w s.info).err =
        match w.ReadFile (versionFilePath w) with
        | .error e => some (.PathError e)
        | .ok c => (Unmarshal c s.info).2) := by
  refine ⟨?_, ?_, ?_, readVersionFile_err w s.info⟩
  · constructor
    · rintro ⟨e, he⟩
      by_cases hl : s.label = ""
      · by_cases hc : s.info.Label = ""
        · refine ⟨hl, hc, ?_⟩
          intro hr
          rw [Get_of_read_ok hl hc hr] at he
          cases he
        · rw [Get_of_cached hl hc] at he
          cases he
      · rw [Get_of_label hl] at he
        cases he
    · rintro ⟨hl, hc, hr⟩
      cases hre : (readVersionFile w s.info).err with
      | none => exact absurd hre hr
      | some e => exact ⟨e, by rw [Get_of_read_error hl hc hre]⟩
  · intro e hl hc hr
    rw [Get_of_read_error hl hc hr]
  · intro h
    by_cases hl : s.label = ""
    · by_cases hc : s.info.Label = ""
      · cases hre : (readVersionFile w s.info).err with
        | none => exact ⟨_, by rw [Get_of_read_ok hl hc hre]⟩
        | some e => exact absurd ⟨hl, hc, by simp [hre]⟩ h
      · exact ⟨_, by rw [Get_of_cached hl hc]⟩
    · exact ⟨_, by rw [Get_of_label hl]⟩

/-- Instance of `Get_error_iff`: a version file that is not JSON makes `Get()` fail
with the syntax error. -/
theorem Get_error_iff_witness :
    (Get (fileWorld "not json") State.initial).result = .error .SyntaxError :=
  (Get_error_iff (fileWorld "not json") State.initial).2.1 .SyntaxError
    (by decide) (by decide) (by decide)

/-! ## Path of the version file -/

/-- C10. `readVersionFile` reads exactly one file, at the value of
`NUCLIO_VERSION_FILE` when that value is non-empty and at
`/etc/nuclio/version_info.json` when the variable is unset or empty; so with
both labels empty, the variable unset and no readable file at the default
path, `Get()` fails with the error `ioutil.ReadFile` gave for that path. -/
theorem readVersionFile_path (w : World) (v : Info) :
    (readVersionFile w v).reads = [versionFilePath w] ∧
      (∀ p, w.env "NUCLIO_VERSION_FILE" = some p → p ≠ "" → versionFilePath w = p) ∧
      (w.env "NUCLIO_VERSION_FILE" = none ∨ w.env "NUCLIO_VERSION_FILE" = some "" →
        versionFilePath w = "/etc/nuclio/version_info.json") ∧
      (∀ s e, s.label = "" → s.info.Label = "" → w.env "NUCLIO_VERSION_FILE" = none →
        w.ReadFile "/etc/nuclio/version_info.json" = .error e →
        (Get w s).result = .error (.PathError e) ∧
          (Get w s).reads = ["/etc/nuclio/version_info.json"]) := by
  have hdef : w.env "NUCLIO_VERSION_FILE" = none ∨ w.env "NUCLIO_VERSION_FILE" = some "" →
      versionFilePath w = "/etc/nuclio/version_info.json" := by
    rintro (h | h) <;> simp [versionFilePath, Getenv, versionFileEnvKey, h]
  refine ⟨readVersionFile_reads w v, ?_, hdef, ?_⟩
  · intro p hp hne
    simp [versionFilePath, Getenv, versionFileEnvKey, hp, hne]
  · intro s e hl hc henv hread
    have hpath := hdef (Or.inl henv)
    rw [← hpath] at hread
    have hr := readVersionFile_of_read_error s.info hread
    have herr : (readVersionFile w s.info).err = some (.PathError e) := by rw [hr]
    rw [Get_of_read_error hl hc herr, hr, hpath]
    exact ⟨rfl, rfl⟩

/-- Instance of `readVersionFile_path`: the variable names the file read, and
without it a missing default file is the error of `Get()`. -/
theorem readVersionFile_path_witness :
    (readVersionFile (envWorld "NUCLIO_VERSION_FILE" "/tmp/version.json") Info.zero).reads
        = ["/tmp/version.json"] ∧
      (Get bareWorld State.initial).result
        = .error (.PathError (notExist "/etc/nuclio/version_info.json")) ∧
      (Get bareWorld State.initial).reads = ["/etc/nuclio/version_info.json"] :=
  ⟨((readVersionFile_path (envWorld "NUCLIO_VERSION_FILE" "/tmp/version.json") Info.zero).2.1
      "/tmp/version.json" (by decide) (by decide)) ▸
      (readVersionFile_path (envWorld "NUCLIO_VERSION_FILE" "/tmp/version.json") Info.zero).1,
    (readVersionFile_path bareWorld Info.zero).2.2.2 State.initial _ (by decide) (by decide)
      (by decide) rfl⟩

/-! ## Logging -/

/-- C8. `Log` hands the logger exactly one record and returns: a warning
carrying the error exactly when `Get()` in the same state fails with it, an
info record carrying the descriptor exactly when `Get()` succeeds with it; the
package variables and the file reads are those of one `Get()` call. -/
theorem Log_one_record (w : World) (s : State) (logger : List Record) :
    ∃ r, (Log w s logger).result = logger ++ [r] ∧
      (∀ e, (Get w s).result = .error e ↔ r = .WarnWith "Failed to read version info" "err" e) ∧
      (∀ v, (Get w s).result = .ok v ↔ r = .InfoWith "Read version" "version" v) ∧
      (Log w s logger).state = (Get w s).state ∧
      (Log w s logger).reads = (Get w s).reads := by
  cases h : (Get w s).result with
  | error e =>
    refine ⟨.WarnWith "Failed to read version info" "err" e, ?_, ?_, ?_, ?_, ?_⟩
    · simp [Log, h]
    rotate_left 2
    · simp [Log, h]
    · simp [Log, h]
    · intro e'
      constructor
      · intro he; cases he; rfl
      · intro he; cases he; rfl
    · intro v
      constructor
      · intro he; cases he
      · intro he; cases he
  | ok v =>
    refine ⟨.InfoWith "Read version" "version" v, ?_, ?_, ?_, ?_, ?_⟩
    · simp [Log, h]
    rotate_left 2
    · simp [Log, h]
    · simp [Log, h]
    · intro e
      constructor
      · intro he; cases he
      · intro he; cases he
    · intro v'
      constructor
      · intro he; cases he; rfl
      · intro he; cases he; rfl

/-! ## `SetFromEnv` -/

/-- C6. After `SetFromEnv()`, in every environment (a variable may be unset,
empty or hold any value) and from every prior state, the build-injected label
is non-empty, so the next `Get()` succeeds with the build-injected values and
reads no file. -/
theorem SetFromEnv_disables_file (w w' : World) (s : State) :
    (SetFromEnv w s).label ≠ "" ∧
      (Get w' (SetFromEnv w s)).result =
        .ok ⟨(SetFromEnv w s).label, (SetFromEnv w s).gitCommit, (SetFromEnv w s).os,
          (SetFromEnv w s).arch, (SetFromEnv w s).goVersion⟩ ∧
      (Get w' (SetFromEnv w s)).reads = [] := by
  have h : (SetFromEnv w s).label ≠ "" :=
    GetEnvOrDefaultString_ne_empty w "NUCLIO_LABEL" "latest" (by decide)
  rw [Get_of_label h]
  exact ⟨h, rfl, rfl⟩

/-- C7. After `SetFromEnv()`, `Get()` succeeds with a descriptor in which each
of `Label`, `GitCommit`, `OS`, `Arch` is the default (`"latest"`, `"c"`,
`"linux"`, `"amd64"`) when its variable is unset, and the variable's value
when that is set and non-empty; `GoVersion` is the runtime's version string,
non-empty when the runtime's is. -/
theorem SetFromEnv_defaults (w w' : World) (s : State) :
    ∃ v, (Get w' (SetFromEnv w s)).result = .ok v ∧
      (w.env "NUCLIO_LABEL" = none → v.Label = "latest") ∧
      (w.env "NUCLIO_VERSION_GIT_COMMIT" = none → v.GitCommit = "c") ∧
      (w.env "NUCLIO_OS" = none → v.OS = "linux") ∧
      (w.env "NUCLIO_ARCH" = none → v.Arch = "amd64") ∧
      (∀ x, w.env "NUCLIO_LABEL" = some x → x ≠ "" → v.Label = x) ∧
      (∀ x, w.env "NUCLIO_VERSION_GIT_COMMIT" = some x → x ≠ "" → v.GitCommit = x) ∧
      (∀ x, w.env "NUCLIO_OS" = some x → x ≠ "" → v.OS = x) ∧
      (∀ x, w.env "NUCLIO_ARCH" = some x → x ≠ "" → v.Arch = x) ∧
      v.GoVersion = w.Version ∧ (w.Version ≠ "" → v.GoVersion ≠ "") := by
  have h : (SetFromEnv w s).label ≠ "" :=
    GetEnvOrDefaultString_ne_empty w "NUCLIO_LABEL" "latest" (by decide)
  rw [Get_of_label h]
  exact ⟨_, rfl,
    GetEnvOrDefaultString_unset w _ _, GetEnvOrDefaultString_unset w _ _,
    GetEnvOrDefaultString_unset w _ _, GetEnvOrDefaultString_unset w _ _,
    fun x => GetEnvOrDefaultString_set w _ _ x, fun x => GetEnvOrDefaultString_set w _ _ x,
    fun x => GetEnvOrDefaultString_set w _ _ x, fun x => GetEnvOrDefaultString_set w _ _ x,
    rfl, fun hv => hv⟩

/-- Instance of `SetFromEnv_defaults`: all defaults in an empty environment, and
`NUCLIO_OS` taking the place of its default when set. -/
theorem SetFromEnv_defaults_witness :
    (Get bareWorld (SetFromEnv bareWorld cachedState)).result
        = .ok ⟨"latest", "c", "linux", "amd64", "go1.17"⟩ ∧
      (Get bareWorld (SetFromEnv (envWorld "NUCLIO_OS" "darwin") cachedState)).result
        = .ok ⟨"latest", "c", "darwin", "amd64", "go1.17"⟩ := by
  constructor
  · obtain ⟨v, hv, h1, h2, h3, h4, -, -, -, -, h5, -⟩ :=
      SetFromEnv_defaults bareWorld bareWorld cachedState
    rw [hv]
    rcases v with ⟨a, b, c, d, e⟩
    simp only at h1 h2 h3 h4 h5
    rw [h1 rfl, h2 rfl, h3 rfl, h4 rfl, h5]
    rfl
  · obtain ⟨v, hv, h1, h2, -, h4, -, -, h3, -, h5, -⟩ :=
      SetFromEnv_defaults (envWorld "NUCLIO_OS" "darwin") bareWorld cachedState
    rw [hv]
    rcases v with ⟨a, b, c, d, e⟩
    simp only at h1 h2 h3 h4 h5
    rw [h1 (by decide), h2 (by decide), h3 "darwin" (by decide) (by decide), h4 (by decide), h5]
    rfl

/-! ## Reading the version file -/

/-- A failed `ioutil.ReadFile` and a syntax error both leave every package
variable, the cache included, as it was. -/
theorem Get_failure_without_store (w : World) (s : State) (hl : s.label = "")
    (hc : s.info.Label = "")
    (h : (∃ e, w.ReadFile (versionFilePath w) = .error e) ∨
      (∃ c, w.ReadFile (versionFilePath w) = .ok c ∧ parseJSON c = none)) :
    (∃ e, (Get w s).result = .error e) ∧ (Get w s).state = s := by
  rcases h with ⟨e, he⟩ | ⟨c, hcont, hp⟩
  · have hr := readVersionFile_of_read_error s.info he
    have herr : (readVersionFile w s.info).err = some (.PathError e) := by rw [hr]
    rw [Get_of_read_error hl hc herr, hr]
    exact ⟨⟨_, rfl⟩, rfl⟩
  · have hr := readVersionFile_of_read_ok s.info hcont
    have hU : Unmarshal c s.info = (s.info, some .SyntaxError) := by simp [Unmarshal, hp]
    rw [hU] at hr
    have herr : (readVersionFile w s.info).err = some .SyntaxError := by rw [hr]
    rw [Get_of_read_error hl hc herr, hr]
    exact ⟨⟨_, rfl⟩, rfl⟩

/-- C3, at a failing input. From the initial state, with
`{"label":"v1.0","os":5}` as the version file, `Get()` returns the type error
of `json.Unmarshal` and no descriptor, yet the cache now holds the label
`"v1.0"`; the next `Get()`, even with the file gone, reads nothing and
succeeds with the partly filled cache. -/
theorem Get_type_mismatch_fills_cache :
    (Get (fileWorld mismatched) State.initial).result
        = .error (.UnmarshalTypeError "number" "os") ∧
      (Get (fileWorld mismatched) State.initial).state.info = ⟨"v1.0", "", "", "", ""⟩ ∧
      (Get bareWorld (Get (fileWorld mismatched) State.initial).state).result
        = .ok ⟨"v1.0", "", "", "", ""⟩ ∧
      (Get bareWorld (Get (fileWorld mismatched) State.initial).state).reads = [] := by
  decide

/-- C2, at a failing input. From the initial state, with `{}` as the version
file, the read and the parse succeed and so do both calls of `Get()`, with
identical results, but each of the two calls reads the file: the guard
`info.Label == ""`, which its comment introduces with "no need to read the
file more than once", does not notice a successful read that stored no
label. -/
theorem Get_twice_rereads :
    State.initial.label = "" ∧ State.initial.info = Info.zero ∧
      (readVersionFile (fileWorld emptyObject) State.initial.info).err = none ∧
      (Get (fileWorld emptyObject) State.initial).result = .ok Info.zero ∧
      (Get (fileWorld emptyObject) (Get (fileWorld emptyObject) State.initial).state).result
        = .ok Info.zero ∧
      (Get (fileWorld emptyObject) State.initial).reads ++
        (Get (fileWorld emptyObject) (Get (fileWorld emptyObject) State.initial).state).reads
        = [defaultPath, defaultPath] ∧
      ¬ ((Get (fileWorld emptyObject) State.initial).reads ++
        (Get (fileWorld emptyObject)
          (Get (fileWorld emptyObject) State.initial).state).reads).length ≤ 1 := by
  decide

/-- What the read-once guard of `Get` achieves. With the build-injected label
empty and the cache slot empty, if the read and the parse of the version file
succeed, then two successive calls of `Get()` on that file both succeed with
the same descriptor. When the parsed label is non-empty the first call reads
the file once and the second call reads nothing and returns that descriptor
whatever the file system and environment have become; when the parsed label
is empty the guard fails to recognise the earlier read and the second call
reads the file again. -/
theorem Get_twice_reads_once (w : World) (s : State) (hl : s.label = "")
    (hc : s.info = Info.zero) (hr : (readVersionFile w s.info).err = none) :
    (Get w s).result = .ok (readVersionFile w s.info).versionInfo ∧
      (Get w (Get w s).state).result = (Get w s).result ∧
      (Get w s).reads = [versionFilePath w] ∧
      ((readVersionFile w s.info).versionInfo.Label ≠ "" →
        ∀ w', (Get w' (Get w s).state).result = (Get w s).result ∧
          (Get w' (Get w s).state).reads = []) ∧
      ((readVersionFile w s.info).versionInfo.Label = "" →
        (Get w (Get w s).state).reads = [versionFilePath w]) := by
  have hc' : s.info.Label = "" := by rw [hc]; rfl
  have h1 := Get_of_read_ok hl hc' hr
  have hst : (Get w s).state = { s with info := (readVersionFile w s.info).versionInfo } := by
    rw [h1]
  have hres : (Get w s).result = .ok (readVersionFile w s.info).versionInfo := by rw [h1]
  have hhit : (readVersionFile w s.info).versionInfo.Label ≠ "" →
      ∀ w', (Get w' (Get w s).state).result = (Get w s).result ∧
        (Get w' (Get w s).state).reads = [] := by
    intro hlab w'
    rw [hres, hst, Get_of_cached (w := w')
      (s := { s with info := (readVersionFile w s.info).versionInfo }) hl hlab]
    exact ⟨rfl, rfl⟩
  have hagain : (readVersionFile w s.info).versionInfo.Label = "" →
      (Get w (Get w s).state).result = (Get w s).result ∧
        (Get w (Get w s).state).reads = [versionFilePath w] := by
    intro hlab
    cases hread : w.ReadFile (versionFilePath w) with
    | error e =>
      rw [readVersionFile_of_read_error s.info hread] at hr
      cases hr
    | ok c =>
      have hv := readVersionFile_of_read_ok s.info hread
      have hv1 : (readVersionFile w s.info).versionInfo = (Unmarshal c s.info).1 := by rw [hv]
      have he1 : (Unmarshal c s.info).2 = none := by rw [hv] at hr; exact hr
      have hv2 := readVersionFile_of_read_ok (Unmarshal c s.info).1 hread
      rw [Unmarshal_idem, Unmarshal_snd c _ s.info, he1] at hv2
      have her2 : (readVersionFile w (Unmarshal c s.info).1).err = none := by rw [hv2]
      rw [hres, hst, hv1]
      rw [hv1] at hlab
      rw [Get_of_read_ok (w := w) (s := { s with info := (Unmarshal c s.info).1 }) hl hlab her2]
      simp only [hv2]
      exact ⟨trivial, trivial⟩
  refine ⟨hres, ?_, by rw [h1]; exact readVersionFile_reads w s.info, hhit,
    fun hlab => (hagain hlab).2⟩
  by_cases hlab : (readVersionFile w s.info).versionInfo.Label = ""
  · exact (hagain hlab).1
  · exact (hhit hlab w).1

/-- Instance of `Get_twice_reads_once`: a file with a label is read by the first
call only, and the second call does not need the file. -/
theorem Get_twice_reads_once_witness :
    (Get (fileWorld labelOnly) State.initial).result = .ok ⟨"v1.0", "", "", "", ""⟩ ∧
      (Get bareWorld (Get (fileWorld labelOnly) State.initial).state).result
        = .ok ⟨"v1.0", "", "", "", ""⟩ ∧
      (Get (fileWorld labelOnly) State.initial).reads = [defaultPath] ∧
      (Get bareWorld (Get (fileWorld labelOnly) State.initial).state).reads = [] := by
  have h := Get_twice_reads_once (fileWorld labelOnly) State.initial
    (by decide) (by decide) (by decide)
  have hv : (readVersionFile (fileWorld labelOnly) State.initial.info).versionInfo
      = ⟨"v1.0", "", "", "", ""⟩ := by decide
  have hp : versionFilePath (fileWorld labelOnly) = defaultPath := by decide
  rw [hv, hp] at h
  have h2 := h.2.2.2.1 (by decide) bareWorld
  exact ⟨h.1, h2.1.trans h.1, h.2.2.1, h2.2⟩

/-- C4, as stated, fails in three ways. (1) A key that is absent leaves the
field as the cache held it, which need not be empty: after a first `Get()` on
the file `{"os":"linux"}` the cached label is still empty, and a `Get()` on
`{"label":"v1.0"}` then returns `OS = "linux"`. (2) Keys are matched without
regard to case: `{"LABEL":"v1.0"}` has no key `label` and yields the label
`"v1.0"`. (3) The last matching member wins: in
`{"label":"a","LABEL":"b"}` the key `label` has the string value `"a"` and the
label returned is `"b"`. -/
theorem Get_from_file_not_by_exact_key :
    ((Get (fileWorld osOnly) State.initial).state.label = "" ∧
        (Get (fileWorld osOnly) State.initial).state.info.Label = "" ∧
        (readVersionFile (fileWorld labelOnly)
          (Get (fileWorld osOnly) State.initial).state.info).err = none ∧
        (Get (fileWorld labelOnly) (Get (fileWorld osOnly) State.initial).state).result
          = .ok ⟨"v1.0", "", "linux", "", ""⟩) ∧
      ((parseJSON upperLabel).map JValue.members = some [("LABEL", .string "v1.0")] ∧
        (Get (fileWorld upperLabel) State.initial).result = .ok ⟨"v1.0", "", "", "", ""⟩) ∧
      ((parseJSON twoLabels).map JValue.members
          = some [("label", .string "a"), ("LABEL", .string "b")] ∧
        (Get (fileWorld twoLabels) State.initial).result = .ok ⟨"b", "", "", "", ""⟩) := by
  refine ⟨by decide, ⟨rfl, by decide⟩, ⟨rfl, by decide⟩⟩

/-- C4, amended. When `Get()` resolves the descriptor from the file with the
build-injected label empty and the whole cache slot empty, and the read and
the parse succeed, then every field whose tag no key of the file's object
equals under case folding is the empty string, and every field whose tag some
key equals under case folding with a string value holds the string of the
last such member; in particular a file containing only `{"label":"v1.0"}`
yields the label `"v1.0"` and the other four fields empty. -/
theorem Get_from_file_fields (w : World) (s : State) (hl : s.label = "")
    (hc : s.info = Info.zero) :
    (∀ contents j v, w.ReadFile (versionFilePath w) = .ok contents →
        parseJSON contents = some j → (Get w s).result = .ok v → ∀ f : Field,
        ((∀ kv ∈ j.members, equalFold f.tag kv.1 = false) → v.get f = "") ∧
        (∀ pre k x post, j.members = pre ++ (k, .string x) :: post →
          equalFold f.tag k = true →
          (∀ kv ∈ post, equalFold f.tag kv.1 = true → ∀ y, kv.2 ≠ .string y) →
          v.get f = x)) ∧
      (w.ReadFile (versionFilePath w) = .ok labelOnly →
        (Get w s).result = .ok ⟨"v1.0", "", "", "", ""⟩) := by
  have hc' : s.info.Label = "" := by rw [hc]; rfl
  constructor
  · intro contents j v hread hparse hok f
    have hr := readVersionFile_of_read_ok s.info hread
    have hv : v = (j.members.foldl decodeMember (Info.zero, none)).1 := by
      cases herr : (readVersionFile w s.info).err with
      | some e =>
        rw [Get_of_read_error hl hc' herr] at hok
        cases hok
      | none =>
        rw [Get_of_read_ok hl hc' herr, hr] at hok
        simp only [Unmarshal, hparse, hc] at hok
        rw [decodeValue_eq_foldl] at hok
        exact (Except.ok.inj hok).symm
    subst hv
    constructor
    · intro habs
      rw [foldl_decodeMember_get_keep j.members f _
        (fun kv hkv hm => by rw [habs kv hkv] at hm; cases hm)]
      exact Info.get_zero f
    · intro pre k x post hms hk hpost
      rw [hms]
      exact foldl_decodeMember_get_last pre post k x f _ hk hpost
  · intro hread
    have hr := readVersionFile_of_read_ok s.info hread
    have hU : Unmarshal labelOnly Info.zero = (⟨"v1.0", "", "", "", ""⟩, none) := by decide
    rw [hc, hU] at hr
    have herr : (readVersionFile w s.info).err = none := by rw [hc, hr]
    rw [Get_of_read_ok hl hc' herr, hc, hr]

/-- Instance of `Get_from_file_fields`: the partial record, and a file in which the
last of two matching keys gives the label. -/
theorem Get_from_file_fields_witness :
    (Get (fileWorld labelOnly) State.initial).result = .ok ⟨"v1.0", "", "", "", ""⟩ ∧
      ∃ v, (Get (fileWorld twoLabels) State.initial).result = .ok v ∧
        v.get .Label = "b" ∧ v.get .OS = "" :=
  ⟨(Get_from_file_fields (fileWorld labelOnly) State.initial (by decide) (by decide)).2 rfl,
    ⟨"b", "", "", "", ""⟩, by decide,
    ((Get_from_file_fields (fileWorld twoLabels) State.initial (by decide) (by decide)).1
      twoLabels (.object [("label", .string "a"), ("LABEL", .string "b")]) _ rfl rfl
      (by decide) .Label).2 [("label", .string "a")] "LABEL" "b" [] rfl (by decide)
      (fun _ hkv => nomatch hkv),
    ((Get_from_file_fields (fileWorld twoLabels) State.initial (by decide) (by decide)).1
      twoLabels (.object [("label", .string "a"), ("LABEL", .string "b")]) _ rfl rfl
      (by decide) .OS).1 (by decide)⟩

end Version
